import Mathlib

/-!
# Verification of the command-security gate and progress counters

Shallow embedding of the repository `valuations-autonomous_coding`.

The repository ships two Python files: `progress.py` (feature-file
progress counters, embedded below from the source) and
`test_security.py` (the test suite of a security module `security.py`
whose source is not part of the repository).  The security module is
therefore modelled from the specification's own description of its
parts (CommandSplitter, InvocationExtractor, AllowlistPolicy,
ChmodValidator, InitScriptValidator, PkillPolicy, HookDecisionEngine),
with its in-repository test suite pinning every behavioural choice the
specification leaves open.
-/

/-! ## Character-level string helpers -/

/-- The single-quote character (code 39). -/
def squoteChar : Char := Char.ofNat 39

/-- The double-quote character (code 34). -/
def dquoteChar : Char := Char.ofNat 34

/-- Whitespace characters recognised by tokenisation and trimming
(space, tab, newline, carriage return), matching Python's `str.split()`
and `str.strip()` on the inputs that occur here. -/
def wsChar (c : Char) : Bool :=
  c == ' ' || c == Char.ofNat 9 || c == Char.ofNat 10 || c == Char.ofNat 13

/-- Drop whitespace from both ends of a character list. -/
def trimChars (cs : List Char) : List Char :=
  ((cs.dropWhile wsChar).reverse.dropWhile wsChar).reverse

/-- Trim surrounding whitespace from a string (Python `str.strip()`). -/
def strTrim (s : String) : String := String.mk (trimChars s.data)

/-- Split into whitespace-separated words, discarding empty pieces
(Python `str.split()` with no argument). `acc` holds the reversed
characters of the word being read. -/
def wordsAux : List Char → List Char → List String
  | [], acc => if acc.isEmpty then [] else [String.mk acc.reverse]
  | c :: rest, acc =>
    if wsChar c then
      if acc.isEmpty then wordsAux rest [] else String.mk acc.reverse :: wordsAux rest []
    else wordsAux rest (c :: acc)

/-- Tokenise a string on whitespace. -/
def tokenize (s : String) : List String := wordsAux s.data []

/-- `isPre pat s`: the character list `pat` is an initial segment of `s`. -/
def isPre : List Char → List Char → Bool
  | [], _ => true
  | _ :: _, [] => false
  | a :: as, b :: bs => a == b && isPre as bs

/-- `strStartsWith s p`: the string `s` starts with `p`
(Python `str.startswith`). -/
def strStartsWith (s p : String) : Bool := isPre p.data s.data

/-- `strEndsWith s p`: the string `s` ends with `p` (Python `str.endswith`). -/
def strEndsWith (s p : String) : Bool := isPre p.data.reverse s.data.reverse

/-- `hasSub pat s`: `pat` occurs in `s` as a contiguous run
(Python `in` on strings). -/
def hasSub (pat : List Char) : List Char → Bool
  | [] => isPre pat []
  | c :: rest => isPre pat (c :: rest) || hasSub pat rest

/-- The final path segment of a program reference: the characters after
the last slash (`/usr/bin/node` to `node`, `./init.sh` to `init.sh`).
`acc` holds the reversed characters of the segment being read. -/
def lastSeg : List Char → List Char → List Char
  | [], acc => acc.reverse
  | '/' :: rest, _ => lastSeg rest []
  | c :: rest, acc => lastSeg rest (c :: acc)

/-- Modelled from the spec: the base name of a program token — "If the
program token contains path separators, take only the final path
segment as the base name". -/
def baseName (s : String) : String := String.mk (lastSeg s.data [])

/-! ## CommandSplitter and InvocationExtractor (modelled from the spec) -/

/-- A character legal inside a shell identifier (letters, digits,
underscore). -/
def identChar (c : Char) : Bool := c.isAlpha || c.isDigit || c == '_'

/-- Modelled from the spec: a token of the shape `IDENTIFIER=VALUE`
(an environment-variable assignment such as `VAR=value`), where the
identifier is non-empty, starts with a letter or underscore, and
consists of identifier characters. -/
def isEnvAssign (t : String) : Bool :=
  t.data.any (fun c => c == '=') &&
    (match t.data.takeWhile (fun c => !(c == '=')) with
     | [] => false
     | c :: rest => (c.isAlpha || c == '_') && rest.all identChar)

/-- Discard leading `IDENTIFIER=VALUE` tokens of a token list. -/
def dropEnvAssigns (ts : List String) : List String := ts.dropWhile isEnvAssign

/-- Modelled from the spec: the CommandSplitter's scan — split at the
top-level operators `&&`, `||`, `|`, `;` when they occur outside of
quoted regions, tracked by a minimal quote-balance state (`none`
outside quotes, `some q` inside a region opened by quote character
`q`).  `acc` holds the reversed characters of the segment being read. -/
def splitAux : Option Char → List Char → List Char → List (List Char)
  | _, acc, [] => [acc.reverse]
  | some q, acc, c :: rest =>
    if c == q then splitAux none (c :: acc) rest else splitAux (some q) (c :: acc) rest
  | none, acc, '&' :: '&' :: rest => acc.reverse :: splitAux none [] rest
  | none, acc, '|' :: '|' :: rest => acc.reverse :: splitAux none [] rest
  | none, acc, '|' :: rest => acc.reverse :: splitAux none [] rest
  | none, acc, ';' :: rest => acc.reverse :: splitAux none [] rest
  | none, acc, c :: rest =>
    if c == squoteChar || c == dquoteChar then splitAux (some c) (c :: acc) rest
    else splitAux none (c :: acc) rest

/-- Modelled from the spec: split a raw command string into trimmed,
non-empty sub-commands at top-level `&&`, `||`, `|`, `;`; empty or
whitespace-only segments are discarded. -/
def splitCommands (s : String) : List String :=
  ((splitAux none [] s.data).map (fun cs => strTrim (String.mk cs))).filter
    (fun t => !(t == ""))

/-- Modelled from the spec: the program token of a sub-command — the
first whitespace-separated token after discarding `NAME=value`
prefix tokens, or `none` when no token remains. -/
def progTok (sc : String) : Option String :=
  match dropEnvAssigns (tokenize sc) with
  | [] => none
  | p :: _ => some p

/-- Modelled from the spec: `extract_commands` splits the raw command
into sub-commands and returns, for each sub-command that has a program
token, that token reduced to its base name. -/
def extract_commands (cmd : String) : List String :=
  (splitCommands cmd).filterMap (fun sc => (progTok sc).map baseName)

/-! ## ChmodValidator (modelled from the spec) -/

/-- A recursive-chmod flag, short or long form. -/
def isRecFlag (t : String) : Bool := t == "-R" || t == "--recursive"

/-- A subject-set character of a chmod mode: `u`, `g`, `o` or `a`. -/
def subjChar (c : Char) : Bool := c == 'u' || c == 'g' || c == 'o' || c == 'a'

/-- Modelled from the spec: the allowed chmod mode grammar — an
optional subject set drawn from `u g o a` followed by the literal
`+x`. -/
def isValidMode (t : String) : Bool := t.data.dropWhile subjChar == ['+', 'x']

/-- Modelled from the spec: a token that reads as a chmod mode
specifier — either all octal digits, or a (possibly empty) subject-set
run followed by one of the operators `+`, `-`, `=`. -/
def isModeTok (t : String) : Bool :=
  !t.data.isEmpty &&
    (t.data.all Char.isDigit ||
      (match t.data.dropWhile subjChar with
       | c :: _ => c == '+' || c == '-' || c == '='
       | [] => false))

/-- A target token of a chmod invocation: neither a mode specifier nor
a `-`-leading flag. -/
def isTargetTok (t : String) : Bool := !(isModeTok t) && !(strStartsWith t "-")

/-- Modelled from the spec: the ChmodValidator on the argument tokens.
Blocks on a recursive flag; requires exactly one mode-specifier token,
which must match the `[ugoa]*+x` grammar; requires at least one
non-flag, non-mode target token. -/
def validate_chmod_args (args : List String) : Bool × String :=
  if args.any isRecFlag then (false, "recursive chmod not allowed")
  else
    match args.filter isModeTok with
    | [m] =>
      if isValidMode m then
        if args.any isTargetTok then (true, "")
        else (false, "missing target file")
      else (false, "disallowed chmod mode")
    | _ => (false, "disallowed chmod mode")

/-- Modelled from the spec: `validate_chmod_command` on a whole command
string — tokenise, drop env-assignment prefixes and the `chmod`
program token, and validate the argument tokens. -/
def validate_chmod_command (cmd : String) : Bool × String :=
  validate_chmod_args (dropEnvAssigns (tokenize cmd)).tail

/-! ## InitScriptValidator (modelled from the spec) -/

/-- Modelled from the spec: a single sub-command is a direct execution
of the init script when its program token (after the env-prefix strip,
before base-name reduction) is a path whose final segment is exactly
`init.sh`. -/
def validateInitSub (sc : String) : Bool :=
  match progTok sc with
  | none => false
  | some p => baseName p == "init.sh"

/-- Modelled from the spec: `validate_init_script` splits the command
and requires every resulting sub-command to be a direct execution of
`init.sh` by its own path; an interpreter invocation (`bash init.sh`)
or any other sub-command fails. -/
def validate_init_script (cmd : String) : Bool × String :=
  let subs := splitCommands cmd
  if !subs.isEmpty && subs.all validateInitSub then (true, "")
  else (false, "init.sh must be executed directly, not via an interpreter")

/-! ## PkillPolicy and AllowlistPolicy (modelled from the spec) -/

/-- Modelled from the spec: the fixed set of development-process
identifiers permitted as `pkill` targets (the Node.js runtime, its
package manager, and the dev-server launcher exercised by the tests). -/
def devProcs : List String := ["node", "npm", "vite"]

/-- A token contains one of the development-process identifiers as a
contiguous run. -/
def hasDevProc (t : String) : Bool := devProcs.any (fun p => hasSub p.data t.data)

/-- Modelled from the spec: the PkillPolicy on the argument tokens —
after discarding a `-f` flag token, some remaining token must contain
a development-process identifier. -/
def validate_pkill_args (args : List String) : Bool × String :=
  if (args.filter (fun t => !(t == "-f"))).any hasDevProc then (true, "")
  else (false, "process termination target not in dev-process allowlist")

/-- Modelled from the spec: the static allowlist of permitted base
program names (file inspection, file/directory manipulation, version
control, Node.js tooling, process listing, `sleep`, `pwd`), as pinned
by the repository's test suite. -/
def allowedPrograms : List String :=
  ["ls", "cat", "head", "tail", "wc", "grep", "cp", "mkdir", "pwd",
   "npm", "node", "git", "ps", "lsof", "sleep"]

/-! ## HookDecisionEngine (modelled from the spec) -/

/-- Modelled from the spec: the per-sub-command dispatch — no program
token fails closed; `chmod` goes to the ChmodValidator, a direct
`init.sh` path to the InitScriptValidator's per-sub-command rule,
`pkill` to the PkillPolicy; anything else is an allowlist membership
test. -/
def validateSubCommand (sc : String) : Bool × String :=
  match dropEnvAssigns (tokenize sc) with
  | [] => (false, "no command found")
  | p :: args =>
    let base := baseName p
    if base == "chmod" then validate_chmod_args args
    else if base == "init.sh" then (true, "")
    else if base == "pkill" then validate_pkill_args args
    else if allowedPrograms.contains base then (true, "")
    else (false, "command not allowed: " ++ base)

/-- The command value carried by a tool request: a string, or a value
of some other JSON type. -/
inductive JVal where
  | str : String → JVal
  | other : JVal

/-- A tool-invocation request: a tool name and the optional `command`
field of its input (absent or non-string commands are malformed). -/
structure HookRequest where
  tool_name : String
  command : Option JVal

/-- The engine's decision: `block = true` with a reason blocks the
command; `block = false` allows it. -/
structure Decision where
  block : Bool
  reason : String

/-- The reason of the first (leftmost) failing sub-command, or `none`
when every sub-command passes. -/
def firstFailure : List String → Option String
  | [] => none
  | sc :: rest =>
    if (validateSubCommand sc).fst then firstFailure rest
    else some (validateSubCommand sc).snd

/-- Modelled from the spec: `bash_security_hook` — non-Bash tools pass
through; a missing or non-string command blocks; a command with no
valid sub-command blocks; otherwise every sub-command is validated and
the first failure's reason is surfaced. -/
def bash_security_hook (req : HookRequest) : Decision :=
  if !(req.tool_name == "Bash") then { block := false, reason := "" }
  else
    match req.command with
    | none => { block := true, reason := "command missing or not a string" }
    | some JVal.other => { block := true, reason := "command missing or not a string" }
    | some (JVal.str cmd) =>
      let subs := splitCommands cmd
      if subs.isEmpty then { block := true, reason := "no command found" }
      else
        match firstFailure subs with
        | some r => { block := true, reason := r }
        | none => { block := false, reason := "" }

/-- A Bash tool request carrying the command string `cmd`. -/
def bashReq (cmd : String) : HookRequest := ⟨"Bash", some (JVal.str cmd)⟩

/-! ## progress.py (embedded from the source)

A project directory is modelled as a list of files; each file has a
name and either its lines (`some lines`) or `none` when opening or
decoding it raises `IOError`/`UnicodeDecodeError`. -/

/-- A file of the project directory: its name and its readable lines,
or `none` when reading raises. -/
structure FeatureFile where
  name : String
  content : Option (List String)

/-- The glob `gherkin.feature_*.feature` of `progress.py`: the name
starts with `gherkin.feature_`, ends with `.feature`, and is long
enough that the two fixed parts do not overlap (the `*` matches a
possibly empty middle). -/
def matchesFeatureGlob (n : String) : Bool :=
  strStartsWith n "gherkin.feature_" && strEndsWith n ".feature" &&
    decide (24 ≤ n.data.length)

/-- The loop body of `count_passing_tests` over one file's lines:
strip each line; `@passing` counts the file, `@failing` stops without
counting, any other non-empty line not starting with `#` stops without
counting, and blank or `#` lines continue to the next line. -/
def fileIsPassing : List String → Bool
  | [] => false
  | l :: rest =>
    if strStartsWith (strTrim l) "@passing" then true
    else if strStartsWith (strTrim l) "@failing" then false
    else if !(strTrim l == "") && !(strStartsWith (strTrim l) "#") then false
    else fileIsPassing rest

/-- The loop body of `count_failing_features` over one file's lines:
`@failing` counts the file, `@passing` stops without counting, any
other non-empty line not starting with `#` stops without counting. -/
def fileIsFailing : List String → Bool
  | [] => false
  | l :: rest =>
    if strStartsWith (strTrim l) "@failing" then true
    else if strStartsWith (strTrim l) "@passing" then false
    else if !(strTrim l == "") && !(strStartsWith (strTrim l) "#") then false
    else fileIsFailing rest

/-- A directory entry counted as passing: its name matched the glob,
it was readable, and its first decisive line carried `@passing`. -/
def fileRecPassing (f : FeatureFile) : Bool :=
  match f.content with
  | none => false
  | some ls => fileIsPassing ls

/-- A directory entry counted as failing: readable and its first
decisive line carried `@failing`. -/
def fileRecFailing (f : FeatureFile) : Bool :=
  match f.content with
  | none => false
  | some ls => fileIsFailing ls

/-- `count_passing_tests` from `progress.py`: glob the directory,
return `(0, 0)` when nothing matches, otherwise the number of matched
files whose tag scan found `@passing` (unreadable files are skipped by
the `except` clause) together with the number of matched files. -/
def count_passing_tests (d : List FeatureFile) : Nat × Nat :=
  let fs := d.filter (fun f => matchesFeatureGlob f.name)
  if fs.isEmpty then (0, 0)
  else (fs.countP fileRecPassing, fs.length)

/-- `count_failing_features` from `progress.py`: glob the directory,
return `0` when nothing matches, otherwise the number of matched files
whose tag scan found `@failing`. -/
def count_failing_features (d : List FeatureFile) : Nat :=
  let fs := d.filter (fun f => matchesFeatureGlob f.name)
  if fs.isEmpty then 0
  else fs.countP fileRecFailing

/-- The first line of a file that is non-empty after stripping and
does not start with `#` — the line that decides the file's tag.  This
follows the specification's reading of the tag scan and is compared
with the source-embedded `fileIsPassing`. -/
def firstContentLine : List String → Option String
  | [] => none
  | l :: rest =>
    if !(strTrim l == "") && !(strStartsWith (strTrim l) "#") then some (strTrim l)
    else firstContentLine rest

/-! ## Helper lemmas about the decision engine -/

/-- Evaluating the hook on a Bash request reduces to the sub-command
scan. -/
theorem hook_bashReq (cmd : String) :
    bash_security_hook (bashReq cmd) =
      (if (splitCommands cmd).isEmpty then
        { block := true, reason := "no command found" }
       else
         match firstFailure (splitCommands cmd) with
         | some r => { block := true, reason := r }
         | none => { block := false, reason := "" }) := by
  rfl

/-- `firstFailure` finds nothing exactly when every sub-command
passes. -/
theorem firstFailure_none_iff (l : List String) :
    firstFailure l = none ↔ ∀ sc ∈ l, (validateSubCommand sc).fst = true := by
  induction l with
  | nil => simp [firstFailure]
  | cons sc rest ih =>
    cases h : (validateSubCommand sc).fst with
    | true => simp [firstFailure, h, ih]
    | false => simp [firstFailure, h]

/-- `firstFailure` surfaces the reason of the leftmost failing
sub-command. -/
theorem firstFailure_eq_find (l : List String) (sc : String)
    (h : l.find? (fun x => !(validateSubCommand x).fst) = some sc) :
    firstFailure l = some (validateSubCommand sc).snd := by
  induction l with
  | nil => simp [List.find?] at h
  | cons a rest ih =>
    cases ha : (validateSubCommand a).fst with
    | true =>
      rw [List.find?_cons_of_neg] at h
      · simp [firstFailure, ha, ih h]
      · simp [ha]
    | false =>
      rw [List.find?_cons_of_pos] at h
      · cases h
        simp [firstFailure, ha]
      · simp [ha]

/-! ## Claim theorems: the decision engine -/

/-- C1: for every raw command with at least one sub-command, the hook
allows exactly when every sub-command individually passes its
applicable validator, and when it blocks, the reason is the one of the
leftmost failing sub-command. -/
theorem hook_conjunction_of_subcommands (cmd : String)
    (hne : ¬ splitCommands cmd = []) :
    ((bash_security_hook (bashReq cmd)).block = false ↔
      ∀ sc ∈ splitCommands cmd, (validateSubCommand sc).fst = true) ∧
    (∀ sc, (splitCommands cmd).find? (fun x => !(validateSubCommand x).fst) = some sc →
      bash_security_hook (bashReq cmd) =
        { block := true, reason := (validateSubCommand sc).snd }) := by
  have hE : (splitCommands cmd).isEmpty = false := by
    cases hsc : splitCommands cmd with
    | nil => exact absurd hsc hne
    | cons a l => rfl
  constructor
  · rw [hook_bashReq, hE]
    cases hf : firstFailure (splitCommands cmd) with
    | none => simpa using (firstFailure_none_iff (splitCommands cmd)).mp hf
    | some r =>
      simp only [Bool.false_eq_true, if_false]
      constructor
      · intro hb; cases hb
      · intro hall
        rw [(firstFailure_none_iff (splitCommands cmd)).mpr hall] at hf
        cases hf
  · intro sc hfind
    rw [hook_bashReq, hE, firstFailure_eq_find (splitCommands cmd) sc hfind]
    rfl

/-- Witness for C1 at a concrete chained command: both sub-commands of
`npm install && npm run build` pass, so the hook allows it. -/
theorem hook_conjunction_witness :
    (bash_security_hook (bashReq "npm install && npm run build")).block = false := by
  have h := hook_conjunction_of_subcommands "npm install && npm run build" (by decide)
  exact h.1.mpr (by decide)

/-- C5: `extract_commands` splits on the top-level operators,
discards `IDENTIFIER=VALUE` env prefixes, and reduces each program
token to its final path segment, on the repository's test vectors. -/
theorem extract_commands_examples :
    extract_commands "npm install && npm run build" = ["npm", "npm"] ∧
    extract_commands "/usr/bin/node script.js" = ["node"] ∧
    extract_commands "VAR=value ls" = ["ls"] ∧
    extract_commands "ls -la" = ["ls"] ∧
    extract_commands "cat file.txt | grep pattern" = ["cat", "grep"] ∧
    extract_commands "git status || git init" = ["git", "git"] := by
  decide

/-- C7: the decision is a function of the request's fields alone — two
requests agreeing on tool name and command receive the identical
decision. -/
theorem hook_deterministic (r₁ r₂ : HookRequest)
    (h₁ : r₁.tool_name = r₂.tool_name) (h₂ : r₁.command = r₂.command) :
    bash_security_hook r₁ = bash_security_hook r₂ := by
  cases r₁ with
  | mk t₁ c₁ =>
    cases r₂ with
    | mk t₂ c₂ =>
      simp only at h₁ h₂
      subst h₁
      subst h₂
      rfl

/-- Witness for C7: the same concrete request built two ways yields
the same decision. -/
theorem hook_deterministic_witness :
    bash_security_hook (bashReq "ls -la") =
      bash_security_hook ⟨"Bash", some (JVal.str "ls -la")⟩ :=
  hook_deterministic _ _ rfl rfl

/-- C6: malformed or degenerate input (missing command, non-string
command, operator-only command, sub-command with no program token
after env-prefix stripping) blocks with a non-empty diagnostic reason,
and the engine is a total function (no raised fault). -/
theorem hook_fails_closed :
    (bash_security_hook ⟨"Bash", none⟩).block = true ∧
    ¬ (bash_security_hook ⟨"Bash", none⟩).reason = "" ∧
    (bash_security_hook ⟨"Bash", some JVal.other⟩).block = true ∧
    ¬ (bash_security_hook ⟨"Bash", some JVal.other⟩).reason = "" ∧
    (bash_security_hook (bashReq "&&")).block = true ∧
    ¬ (bash_security_hook (bashReq "&&")).reason = "" ∧
    (bash_security_hook (bashReq "VAR=1")).block = true ∧
    ¬ (bash_security_hook (bashReq "VAR=1")).reason = "" ∧
    (∀ cmd, splitCommands cmd = [] →
      bash_security_hook (bashReq cmd) =
        { block := true, reason := "no command found" }) ∧
    (∀ cmd sc, sc ∈ splitCommands cmd → dropEnvAssigns (tokenize sc) = [] →
      (bash_security_hook (bashReq cmd)).block = true) := by
  refine ⟨by decide, by decide, by decide, by decide, by decide,
    by decide, by decide, by decide, ?_, ?_⟩
  · intro cmd h
    rw [hook_bashReq, h]
    rfl
  · intro cmd sc hmem hnil
    rw [hook_bashReq]
    have hE : (splitCommands cmd).isEmpty = false := by
      cases h : splitCommands cmd with
      | nil => rw [h] at hmem; cases hmem
      | cons a l => rfl
    have hfail : (validateSubCommand sc).fst = false := by
      unfold validateSubCommand
      rw [hnil]
    rw [hE]
    cases hf : firstFailure (splitCommands cmd) with
    | some r => simp
    | none =>
      exfalso
      have hall := (firstFailure_none_iff (splitCommands cmd)).mp hf
      have := hall sc hmem
      rw [hfail] at this
      cases this

/-- Evaluating the per-sub-command dispatch once the token list is
known to start with a program token. -/
theorem validateSubCommand_cons (sc p : String) (args : List String)
    (h : dropEnvAssigns (tokenize sc) = p :: args) :
    validateSubCommand sc =
      (if baseName p == "chmod" then validate_chmod_args args
       else if baseName p == "init.sh" then (true, "")
       else if baseName p == "pkill" then validate_pkill_args args
       else if allowedPrograms.contains (baseName p) then (true, "")
       else (false, "command not allowed: " ++ baseName p)) := by
  unfold validateSubCommand
  rw [h]

/-- C2 counterexample: `killall node` has base program `killall` and a
target containing a development-process identifier, yet the hook
blocks it (the test suite requires this), refuting the claim that
`killall` is governed by the dev-target rule. -/
theorem pkill_killall_counterexample :
    extract_commands "killall node" = ["killall"] ∧
    hasDevProc "node" = true ∧
    (bash_security_hook (bashReq "killall node")).block = true := by
  decide

/-- C2 (amended): the dev-target rule governs `pkill` only — a `pkill`
sub-command passes exactly when a non-`-f` argument contains a
development-process identifier — while `killall` always fails (it is
not in the allowlist and has no special case). -/
theorem pkill_target_allowlist (sc p : String) (args : List String)
    (h : dropEnvAssigns (tokenize sc) = p :: args) :
    (baseName p = "pkill" →
      ((validateSubCommand sc).fst = true ↔
        (args.filter (fun t => !(t == "-f"))).any hasDevProc = true)) ∧
    (baseName p = "killall" → (validateSubCommand sc).fst = false) ∧
    (bash_security_hook (bashReq "pkill node")).block = false ∧
    (bash_security_hook (bashReq "pkill -f node")).block = false ∧
    (bash_security_hook (bashReq "pkill vite")).block = false ∧
    (bash_security_hook (bashReq "pkill chrome")).block = true ∧
    (bash_security_hook (bashReq "pkill bash")).block = true ∧
    (bash_security_hook (bashReq "killall node")).block = true := by
  refine ⟨?_, ?_, by decide, by decide, by decide, by decide, by decide, by decide⟩
  · intro hp
    rw [validateSubCommand_cons sc p args h, hp]
    simp only [String.reduceBEq, Bool.false_eq_true, if_false, if_true]
    unfold validate_pkill_args
    by_cases ht : (args.filter (fun t => !(t == "-f"))).any hasDevProc = true
    · simp [ht]
    · rw [Bool.not_eq_true] at ht
      simp [ht]
  · intro hp
    rw [validateSubCommand_cons sc p args h, hp]
    simp
    decide

/-- Witness for C2's amended rule at a concrete sub-command. -/
theorem pkill_target_witness : (validateSubCommand "pkill node").fst = true := by
  have h := pkill_target_allowlist "pkill node" "pkill" ["node"] (by decide)
  exact (h.1 (by decide)).mpr (by decide)

/-- C3: the ChmodValidator allows exactly when no recursive flag is
present, exactly one token is a mode specifier and it matches the
`[ugoa]*+x` grammar, and a target token remains; each violation yields
its reason, and multiple target files are permitted. -/
theorem chmod_validator_spec (args : List String) :
    ((validate_chmod_args args).fst = true ↔
      (args.any isRecFlag = false ∧
       (∃ m, args.filter isModeTok = [m] ∧ isValidMode m = true) ∧
       args.any isTargetTok = true)) ∧
    (args.any isRecFlag = true →
      validate_chmod_args args = (false, "recursive chmod not allowed")) ∧
    (args.any isRecFlag = false →
      ¬ (∃ m, args.filter isModeTok = [m] ∧ isValidMode m = true) →
      validate_chmod_args args = (false, "disallowed chmod mode")) ∧
    (args.any isRecFlag = false →
      (∃ m, args.filter isModeTok = [m] ∧ isValidMode m = true) →
      args.any isTargetTok = false →
      validate_chmod_args args = (false, "missing target file")) ∧
    validate_chmod_command "chmod +x file1.sh file2.sh" = (true, "") ∧
    validate_chmod_command "chmod -R +x dir/" = (false, "recursive chmod not allowed") ∧
    validate_chmod_command "chmod --recursive +x dir/" = (false, "recursive chmod not allowed") ∧
    validate_chmod_command "chmod 777 init.sh" = (false, "disallowed chmod mode") ∧
    validate_chmod_command "chmod +x" = (false, "missing target file") := by
  refine ⟨?_, ?_, ?_, ?_, by decide, by decide, by decide, by decide, by decide⟩
  · unfold validate_chmod_args
    by_cases hrec : args.any isRecFlag = true
    · simp [hrec]
    · rw [Bool.not_eq_true] at hrec
      cases hm : args.filter isModeTok with
      | nil => simp [hrec, hm]
      | cons m tl =>
        cases tl with
        | nil =>
          by_cases hv : isValidMode m = true
          · by_cases ht : args.any isTargetTok = true
            · simp [hrec, hm, hv, ht]
            · rw [Bool.not_eq_true] at ht
              simp [hrec, hm, hv, ht]
          · rw [Bool.not_eq_true] at hv
            simp [hrec, hm, hv]
        | cons m2 tl2 => simp [hrec, hm]
  · intro hrec
    unfold validate_chmod_args
    simp [hrec]
  · intro hrec hnm
    unfold validate_chmod_args
    cases hm : args.filter isModeTok with
    | nil => simp [hrec, hm]
    | cons m tl =>
      cases tl with
      | nil =>
        by_cases hv : isValidMode m = true
        · exact absurd ⟨m, hm, hv⟩ hnm
        · rw [Bool.not_eq_true] at hv
          simp [hrec, hm, hv]
      | cons m2 tl2 => simp [hrec, hm]
  · intro hrec hex ht
    obtain ⟨m, hm, hv⟩ := hex
    unfold validate_chmod_args
    simp [hrec, hm, hv, ht]

/-- Witness for C3: a plain `u+x` grant with one target is allowed. -/
theorem chmod_validator_witness :
    (validate_chmod_args ["u+x", "init.sh"]).fst = true := by
  have h := chmod_validator_spec ["u+x", "init.sh"]
  exact h.1.mpr ⟨by decide, ⟨"u+x", by decide, by decide⟩, by decide⟩

/-- C4: a sub-command passes the InitScriptValidator exactly when its
program token's final path segment is exactly `init.sh`; interpreter
invocations (`bash init.sh`, `sh init.sh`) fail because the program
token is the interpreter, and the listed direct-path forms pass. -/
theorem init_script_direct_path (sc p : String) (rest : List String)
    (h : dropEnvAssigns (tokenize sc) = p :: rest) :
    (validateInitSub sc = true ↔ baseName p = "init.sh") ∧
    (validate_init_script "bash init.sh").fst = false ∧
    (validate_init_script "sh init.sh").fst = false ∧
    (validate_init_script "./init.sh").fst = true ∧
    (validate_init_script "/absolute/path/init.sh").fst = true ∧
    (validate_init_script "../relative/init.sh").fst = true ∧
    (validate_init_script "./init.sh arg1 arg2").fst = true ∧
    (validate_init_script "./setup.sh").fst = false := by
  refine ⟨?_, by decide, by decide, by decide, by decide, by decide,
    by decide, by decide⟩
  unfold validateInitSub progTok
  rw [h]
  simp [beq_iff_eq]

/-- Witness for C4 at the basic direct invocation. -/
theorem init_script_witness : validateInitSub "./init.sh" = true := by
  have h := init_script_direct_path "./init.sh" "./init.sh" [] (by decide)
  exact h.1.mpr (by decide)

/-! ## Helper lemmas about the tag scan -/

/-- Two true initial-segment tests agree on the first character. -/
theorem isPre_first {a b : Char} {x y s : List Char}
    (h1 : isPre (a :: x) s = true) (h2 : isPre (b :: y) s = true) : a = b := by
  cases s with
  | nil => simp [isPre] at h1
  | cons d r =>
    simp only [isPre, Bool.and_eq_true, beq_iff_eq] at h1 h2
    exact h1.1.trans h2.1.symm

/-- Two true initial-segment tests agree on the second character. -/
theorem isPre_second {a b c : Char} {x y s : List Char}
    (h1 : isPre (a :: b :: x) s = true) (h2 : isPre (a :: c :: y) s = true) :
    b = c := by
  cases s with
  | nil => simp [isPre] at h1
  | cons d r =>
    cases r with
    | nil => simp [isPre] at h1
    | cons e r2 =>
      simp only [isPre, Bool.and_eq_true, beq_iff_eq] at h1 h2
      exact h1.2.1.trans h2.2.1.symm

/-- A line starting with `@passing` does not start with `@failing`. -/
theorem tag_exclusive (s : String) (h : strStartsWith s "@passing" = true) :
    strStartsWith s "@failing" = false := by
  by_contra hf
  rw [Bool.not_eq_false] at hf
  have h1 : isPre ('@' :: 'p' :: "assing".data) s.data = true := h
  have h2 : isPre ('@' :: 'f' :: "ailing".data) s.data = true := hf
  exact absurd (isPre_second h1 h2) (by decide)

/-- A line starting with `@failing` does not start with `@passing`. -/
theorem tag_exclusive_rev (s : String) (h : strStartsWith s "@failing" = true) :
    strStartsWith s "@passing" = false := by
  by_contra hf
  rw [Bool.not_eq_false] at hf
  have h1 : isPre ('@' :: 'f' :: "ailing".data) s.data = true := h
  have h2 : isPre ('@' :: 'p' :: "assing".data) s.data = true := hf
  exact absurd (isPre_second h1 h2) (by decide)

/-- A line starting with a non-empty tag is not the empty string. -/
theorem at_tag_ne_empty (s t : String) (a : Char) (x : List Char)
    (hp : t.data = a :: x) (h : strStartsWith s t = true) :
    (s == "") = false := by
  rw [beq_eq_false_iff_ne]
  intro he
  subst he
  unfold strStartsWith at h
  rw [hp, show ("".data : List Char) = [] from rfl] at h
  simp [isPre] at h

/-- A line starting with an `@` tag does not start with `#`. -/
theorem at_tag_not_hash (s t : String) (x : List Char)
    (hp : t.data = '@' :: x) (h : strStartsWith s t = true) :
    strStartsWith s "#" = false := by
  by_contra hf
  rw [Bool.not_eq_false] at hf
  have h1 : isPre ('@' :: x) s.data = true := by
    unfold strStartsWith at h
    rw [hp] at h
    exact h
  have h2 : isPre ('#' :: ([] : List Char)) s.data = true := hf
  exact absurd (isPre_first h1 h2) (by decide)

/-- A file the passing scan counts is never counted by the failing
scan: the two loops read the same first decisive line. -/
theorem pass_not_fail (ls : List String) (h : fileIsPassing ls = true) :
    fileIsFailing ls = false := by
  induction ls with
  | nil => simp [fileIsPassing] at h
  | cons l rest ih =>
    rw [fileIsPassing] at h
    rw [fileIsFailing]
    by_cases hp : strStartsWith (strTrim l) "@passing" = true
    · have hf : strStartsWith (strTrim l) "@failing" = false := tag_exclusive _ hp
      simp [hf, hp]
    · rw [if_neg hp] at h
      by_cases hfail : strStartsWith (strTrim l) "@failing" = true
      · rw [if_pos hfail] at h
        cases h
      · rw [if_neg hfail] at h
        by_cases hc : (!(strTrim l == "") && !(strStartsWith (strTrim l) "#")) = true
        · rw [if_pos hc] at h
          cases h
        · rw [if_neg hc] at h
          simp [hp, hfail, hc, ih h]

/-- Both progress counters reduce to a count over the globbed files. -/
theorem count_passing_eq (d : List FeatureFile) :
    count_passing_tests d =
      ((d.filter (fun f => matchesFeatureGlob f.name)).countP fileRecPassing,
        (d.filter (fun f => matchesFeatureGlob f.name)).length) := by
  cases h : d.filter (fun f => matchesFeatureGlob f.name) with
  | nil => simp [count_passing_tests, h]
  | cons a l => simp [count_passing_tests, h]

/-- The failing counter reduces to a count over the globbed files. -/
theorem count_failing_eq (d : List FeatureFile) :
    count_failing_features d =
      (d.filter (fun f => matchesFeatureGlob f.name)).countP fileRecFailing := by
  cases h : d.filter (fun f => matchesFeatureGlob f.name) with
  | nil => simp [count_failing_features, h]
  | cons a l => simp [count_failing_features, h]

/-- Counting two mutually exclusive predicates stays within the list
length. -/
theorem countP_disjoint (fs : List FeatureFile) :
    fs.countP fileRecPassing + fs.countP fileRecFailing ≤ fs.length := by
  induction fs with
  | nil => simp
  | cons f tl ih =>
    rw [List.countP_cons, List.countP_cons, List.length_cons]
    by_cases hp : fileRecPassing f = true
    · have hf : fileRecFailing f = false := by
        unfold fileRecPassing at hp
        unfold fileRecFailing
        cases hc : f.content with
        | none => rfl
        | some ls =>
          rw [hc] at hp
          exact pass_not_fail ls hp
      simp [hp, hf]
      omega
    · rw [Bool.not_eq_true] at hp
      by_cases hf : fileRecFailing f = true
      · simp [hp, hf]
        omega
      · rw [Bool.not_eq_true] at hf
        simp [hp, hf]
        omega

/-! ## Claim theorems: the progress counters -/

/-- C8: `count_passing_tests` returns `(passing, total)` with
`passing ≤ total`; an empty glob yields `(0, 0)`; an unreadable file
matching the glob raises the total by one and never the passing
count. -/
theorem count_passing_bounds (d : List FeatureFile) (f : FeatureFile)
    (hg : matchesFeatureGlob f.name = true) (hc : f.content = none) :
    (count_passing_tests d).fst ≤ (count_passing_tests d).snd ∧
    (d.filter (fun g => matchesFeatureGlob g.name) = [] →
      count_passing_tests d = (0, 0)) ∧
    count_passing_tests (f :: d) =
      ((count_passing_tests d).fst, (count_passing_tests d).snd + 1) := by
  refine ⟨?_, ?_, ?_⟩
  · rw [count_passing_eq]
    exact List.countP_le_length _
  · intro h
    simp [count_passing_tests, h]
  · rw [count_passing_eq, count_passing_eq]
    have hfil : (f :: d).filter (fun g => matchesFeatureGlob g.name) =
        f :: d.filter (fun g => matchesFeatureGlob g.name) := by
      simp [List.filter_cons, hg]
    rw [hfil]
    have hnp : fileRecPassing f = false := by
      unfold fileRecPassing
      rw [hc]
    rw [List.countP_cons, List.length_cons, hnp]
    simp

/-- Witness for C8: a directory holding one matching but unreadable
file counts `(0, 1)`. -/
theorem count_passing_bounds_witness :
    count_passing_tests
      [({ name := "gherkin.feature_1.feature", content := none } : FeatureFile)] =
      (0, 1) := by
  have h := count_passing_bounds []
    ⟨"gherkin.feature_1.feature", none⟩ (by decide) rfl
  rw [h.2.2]
  decide

/-- C9: passing plus failing counts never exceed the total — the two
scans classify each globbed file by the same first decisive line, and
no line starts with both tags. -/
theorem pass_fail_partition (d : List FeatureFile) :
    (count_passing_tests d).fst + count_failing_features d ≤
      (count_passing_tests d).snd := by
  rw [count_passing_eq, count_failing_eq]
  exact countP_disjoint _

/-- Witness for C9 at a concrete two-file directory. -/
theorem pass_fail_partition_witness :
    (count_passing_tests
        [({ name := "gherkin.feature_1.feature", content := some ["@passing"] } : FeatureFile),
         ({ name := "gherkin.feature_2.feature", content := some ["@failing"] } : FeatureFile)]).fst +
      count_failing_features
        [({ name := "gherkin.feature_1.feature", content := some ["@passing"] } : FeatureFile),
         ({ name := "gherkin.feature_2.feature", content := some ["@failing"] } : FeatureFile)] ≤
      (count_passing_tests
        [({ name := "gherkin.feature_1.feature", content := some ["@passing"] } : FeatureFile),
         ({ name := "gherkin.feature_2.feature", content := some ["@failing"] } : FeatureFile)]).snd :=
  pass_fail_partition _

/-- C10: the passing scan accepts a file exactly when its first line
that is non-empty after stripping and does not start with `#` starts
with `@passing`; blank and comment lines are skipped and a tag after
real content is ignored. -/
theorem passing_tag_first_content (ls : List String) :
    fileIsPassing ls = true ↔
      ∃ s, firstContentLine ls = some s ∧ strStartsWith s "@passing" = true := by
  induction ls with
  | nil => simp [fileIsPassing, firstContentLine]
  | cons l rest ih =>
    rw [fileIsPassing, firstContentLine]
    by_cases hp : strStartsWith (strTrim l) "@passing" = true
    · have h1 : (strTrim l == "") = false :=
        at_tag_ne_empty _ "@passing" '@' "passing".data rfl hp
      have h2 : strStartsWith (strTrim l) "#" = false :=
        at_tag_not_hash _ "@passing" "passing".data rfl hp
      simp [hp, h1, h2]
    · by_cases hfail : strStartsWith (strTrim l) "@failing" = true
      · have h1 : (strTrim l == "") = false :=
          at_tag_ne_empty _ "@failing" '@' "failing".data rfl hfail
        have h2 : strStartsWith (strTrim l) "#" = false :=
          at_tag_not_hash _ "@failing" "failing".data rfl hfail
        simp [hp, hfail, h1, h2]
      · by_cases hc : (!(strTrim l == "") && !(strStartsWith (strTrim l) "#")) = true
        · simp [hp, hfail, hc]
        · simp [hp, hfail, hc, ih]

/-- Witness for C10: the tag is found past comments and blanks, and a
tag after a content line is ignored. -/
theorem passing_tag_witness :
    fileIsPassing ["# comment", "", "@passing", "Feature: x"] = true ∧
    fileIsPassing ["Feature: x", "@passing"] = false :=
  ⟨(passing_tag_first_content _).mpr ⟨"@passing", by decide, by decide⟩, by decide⟩
